import Mathlib

/-!
Shallow embedding of the `Grid2D` flat-buffer 2D grid engine from
`src/grid.rs` of the `geologic` repository, together with the bounding-box
decomposition it consumes from `src/bounds.rs`.

Modelling conventions:
* Rust `usize` values are modelled as `Nat`; all index arithmetic in the
  source is pure addition/multiplication on `usize` (no overflow behaviour
  is relied upon by the source or the spec, and all concrete scenarios are
  tiny), so plain `Nat` arithmetic is the faithful translation.
* The buffer (`arr`, any `Interpretation2D` carrier) is a `List α`.
* Debug-build semantics: `debug_assert!`/`assert!` failures, explicit
  `panic!`, slice-indexing panics (`&mut self[range]` with an out-of-range
  range), `chunks_exact(0)` and division by zero are all modelled as
  explicit `GridError` values in an `Except`.  Mutating operations report
  the buffer contents at the moment of the panic alongside the error,
  mirroring the fact that the writes performed before the panic have
  already happened in place.
* Iterators (`row_ranges`, `chunks_exact`, `enumerate`) become lists /
  index arithmetic; rows are visited in increasing order exactly as the
  `for (row, range) in rows.enumerate()` loop does.
-/

/-- The decomposition `(x, y, width, height)` of a `Bounds2D<usize>`
(position + size), which is all the grid engine reads from a bounding box. -/
structure Bounds2D where
  x : Nat
  y : Nat
  width : Nat
  height : Nat
deriving DecidableEq, Repr

/-- `Bounds2D::area`, i.e. `Size2D::area` = `width * height`. -/
def Bounds2D.area (b : Bounds2D) : Nat := b.width * b.height

/-- The panic / assertion-failure conditions of `grid.rs`, made explicit. -/
inductive GridError where
  /-- `debug_assert!(bounds.size().area() > 0)` in `row_ranges`. -/
  | assertArea : GridError
  /-- `debug_assert!(chunk_size > 0)` in `Grid2D::new`. -/
  | assertChunkSize : GridError
  /-- Division by zero computing `arr_size / (width * chunk_size)` in
  `Grid2D::new` (Rust panics on integer division by zero). -/
  | divByZero : GridError
  /-- The `assert!(expected_size == arr_size, ...)` in `Grid2D::new`,
  carrying `expected_size` and the actual length as the message does. -/
  | assertSize (expected got : Nat) : GridError
  /-- Panic from indexing the buffer with an out-of-range `start..end`. -/
  | sliceOutOfRange (start stop len : Nat) : GridError
  /-- `data.chunks_exact(0)` panics (`chunk size must be non-zero`). -/
  | chunksExactZero : GridError
  /-- The `panic!` in `Grid2D::insert` when the incoming data is exhausted:
  carries the expected row count `bounds.height()` and the row reached. -/
  | insertRows (expected row : Nat) : GridError
deriving DecidableEq, Repr

/-- `row_ranges` from `src/grid.rs`: one half-open range `(start, stop)` per
row of the bounding box.  The `debug_assert!` on the area is modelled
separately at the call sites (it runs when the function is called). -/
def row_ranges (bounds : Bounds2D) (grid_width chunk_size : Nat) :
    List (Nat × Nat) :=
  let cell_x := bounds.x * chunk_size
  let width := bounds.width * chunk_size
  let full_width := grid_width * chunk_size
  let start_cell := cell_x + bounds.y * full_width
  (List.range bounds.height).map fun row =>
    let cell_y := row * full_width
    let start := start_cell + cell_y
    (start, start + width)

/-- `Grid2D<T>`: a flat buffer plus a logical width and per-cell chunk size. -/
structure Grid2D (α : Type) where
  arr : List α
  width : Nat
  chunk_size : Nat
deriving DecidableEq, Repr

/-- `Grid2D::new` with the debug-build assertions made explicit: the chunk
size must be positive, and the buffer length must round-trip through the
inferred height (`inferred_height * width * chunk_size == arr_size`). -/
def Grid2D.new (arr : List α) (width chunk_size : Nat) :
    Except GridError (Grid2D α) :=
  if chunk_size = 0 then .error .assertChunkSize
  else if width * chunk_size = 0 then .error .divByZero
  else
    let arr_size := arr.length
    let inferred_height := arr_size / (width * chunk_size)
    let expected_size := inferred_height * width * chunk_size
    if expected_size = arr_size then .ok ⟨arr, width, chunk_size⟩
    else .error (.assertSize expected_size arr_size)

/-- The loop of `Interpretation2D::write`: for each `(row, range)` in order,
take the slice `&mut self[range]` (panicking if the range is out of range)
and hand it to the mutator; the mutator replaces the slice contents in
place.  The mutator itself may panic (as `Grid2D::insert`'s closure does),
in which case the buffer at that moment is reported with the error. -/
def writeRows (buf : List α) (row : Nat) (rows : List (Nat × Nat))
    (write : Nat → List α → Except GridError (List α)) :
    Except (GridError × List α) (List α) :=
  match rows with
  | [] => .ok buf
  | (s, e) :: rest =>
    if e ≤ buf.length then
      match write row ((buf.drop s).take (e - s)) with
      | .error err => .error (err, buf)
      | .ok out => writeRows (buf.take s ++ out ++ buf.drop e) (row + 1) rest write
    else .error (.sliceOutOfRange s e buf.length, buf)

/-- `Grid2D::write`: compute the row ranges (running the area assertion of
`row_ranges`) and dispatch each row's slice to the mutator. -/
def Grid2D.write (g : Grid2D α) (bounds : Bounds2D)
    (f : Nat → List α → List α) : Except (GridError × List α) (Grid2D α) :=
  if bounds.area = 0 then .error (.assertArea, g.arr)
  else
    match writeRows g.arr 0 (row_ranges bounds g.width g.chunk_size)
        (fun row slice => .ok (f row slice)) with
    | .ok buf => .ok { g with arr := buf }
    | .error e => .error e

/-- The per-row closure of `Grid2D::insert`: `chunked.next()` yields the
next `line_length`-sized chunk of `data` if one remains (the chunk for row
`row` is `data[row*line_length .. (row+1)*line_length)`, since rows are
visited in order), and otherwise the closure panics with the expected row
count and the row reached. -/
def insertWriter (data : List α) (line_length expected : Nat) :
    Nat → List α → Except GridError (List α) :=
  fun row _ =>
    if (row + 1) * line_length ≤ data.length then
      .ok ((data.drop (row * line_length)).take line_length)
    else .error (.insertRows expected row)

/-- `Grid2D::insert`: chunk the incoming data into rows of
`bounds.width * chunk_size` elements (`chunks_exact`, which panics on a
zero chunk length) and copy chunk `row` over row `row` of the region,
panicking with the expected and reached row when the data runs out. -/
def Grid2D.insert (g : Grid2D α) (bounds : Bounds2D) (data : List α) :
    Except (GridError × List α) (Grid2D α) :=
  let line_length := bounds.width * g.chunk_size
  if line_length = 0 then .error (.chunksExactZero, g.arr)
  else if bounds.area = 0 then .error (.assertArea, g.arr)
  else
    match writeRows g.arr 0 (row_ranges bounds g.width g.chunk_size)
        (insertWriter data line_length bounds.height) with
    | .ok buf => .ok { g with arr := buf }
    | .error e => .error e

/-- The `flat_map` of `Grid2D::slice`: concatenate the buffer segments of
the given ranges in order, panicking on an out-of-range range. -/
def sliceRows (buf : List α) (rows : List (Nat × Nat)) :
    Except GridError (List α) :=
  match rows with
  | [] => .ok []
  | (s, e) :: rest =>
    if e ≤ buf.length then
      match sliceRows buf rest with
      | .ok tail => .ok ((buf.drop s).take (e - s) ++ tail)
      | .error err => .error err
    else .error (.sliceOutOfRange s e buf.length)

/-- `Grid2D::slice`: the concatenation, in row order, of the region's row
segments (running the area assertion of `row_ranges`). -/
def Grid2D.slice (g : Grid2D α) (bounds : Bounds2D) :
    Except GridError (List α) :=
  if bounds.area = 0 then .error .assertArea
  else sliceRows g.arr (row_ranges bounds g.width g.chunk_size)

/-- `Grid2D::size`: `(width, (len / chunk_size) / width)`, with Rust's
panic on division by zero made explicit. -/
def Grid2D.size (g : Grid2D α) : Except GridError (Nat × Nat) :=
  if g.chunk_size = 0 ∨ g.width = 0 then .error .divByZero
  else .ok (g.width, g.arr.length / g.chunk_size / g.width)

/-- `index_at` / `Grid2D::index`: starting buffer offset of the cell. -/
def index_at (x y grid_width chunk_size : Nat) : Nat :=
  x * chunk_size + y * (grid_width * chunk_size)

/-! ### Helper lemmas about the row-range list and the write/slice loops -/

/-- Row ranges rewritten with an explicit running start offset: the `r`-th
range of `rowRangesAux s W L n` is `(s + r*W, s + r*W + L)`. -/
def rowRangesAux (s W L : Nat) : Nat → List (Nat × Nat)
  | 0 => []
  | n + 1 => (s, s + L) :: rowRangesAux (s + W) W L n

theorem rowRangesAux_eq_map (W L : Nat) :
    ∀ (n s : Nat), rowRangesAux s W L n =
      (List.range n).map fun r => (s + r * W, s + r * W + L) := by
  intro n
  induction n with
  | zero => intro s; rfl
  | succ m ih =>
    intro s
    rw [List.range_succ_eq_map]
    simp only [rowRangesAux, List.map_cons, List.map_map, ih (s + W)]
    congr 1
    · simp
    · apply List.map_congr_left
      intro r _
      simp only [Function.comp_apply, Nat.succ_eq_add_one, Prod.mk.injEq]
      constructor <;> ring

theorem length_rowRangesAux (W L : Nat) :
    ∀ (n s : Nat), (rowRangesAux s W L n).length = n := by
  intro n
  induction n with
  | zero => intro s; rfl
  | succ m ih => intro s; simpa [rowRangesAux] using ih (s + W)

theorem rowRangesAux_add (W L : Nat) :
    ∀ (m n s : Nat), rowRangesAux s W L (m + n) =
      rowRangesAux s W L m ++ rowRangesAux (s + m * W) W L n := by
  intro m
  induction m with
  | zero => intro n s; simp [rowRangesAux]
  | succ k ih =>
    intro n s
    have h1 : k + 1 + n = (k + n) + 1 := by omega
    rw [h1]
    simp only [rowRangesAux, ih n (s + W), List.cons_append]
    have h2 : s + W + k * W = s + (k + 1) * W := by ring
    rw [h2]

theorem row_ranges_eq_aux (b : Bounds2D) (gw cs : Nat) :
    row_ranges b gw cs =
      rowRangesAux (b.x * cs + b.y * (gw * cs)) (gw * cs) (b.width * cs)
        b.height := by
  rw [rowRangesAux_eq_map]
  simp only [row_ranges]

theorem writeRows_append (buf : List α) (r0 : Nat) (rs1 rs2 : List (Nat × Nat))
    (f : Nat → List α → Except GridError (List α)) :
    writeRows buf r0 (rs1 ++ rs2) f =
      match writeRows buf r0 rs1 f with
      | .ok b => writeRows b (r0 + rs1.length) rs2 f
      | .error e => .error e := by
  induction rs1 generalizing buf r0 with
  | nil => simp [writeRows]
  | cons hd tl ih =>
    obtain ⟨s, e⟩ := hd
    simp only [List.cons_append, writeRows, List.length_cons]
    by_cases he : e ≤ buf.length
    · simp only [if_pos he]
      cases f r0 ((buf.drop s).take (e - s)) with
      | error err => rfl
      | ok out =>
        dsimp only
        rw [show tl.append rs2 = tl ++ rs2 from rfl, ih]
        have h2 : r0 + 1 + tl.length = r0 + (tl.length + 1) := by omega
        rw [h2]
    · simp [if_neg he]

theorem writeRows_congr (buf : List α) (r0 : Nat) (rs : List (Nat × Nat))
    (f f' : Nat → List α → Except GridError (List α))
    (h : ∀ r sl, r0 ≤ r → r < r0 + rs.length → f r sl = f' r sl) :
    writeRows buf r0 rs f = writeRows buf r0 rs f' := by
  induction rs generalizing buf r0 with
  | nil => rfl
  | cons hd tl ih =>
    obtain ⟨s, e⟩ := hd
    simp only [writeRows]
    by_cases he : e ≤ buf.length
    · simp only [if_pos he]
      rw [← h r0 ((buf.drop s).take (e - s)) (le_refl r0)
        (by simp only [List.length_cons]; omega)]
      cases f r0 ((buf.drop s).take (e - s)) with
      | error err => rfl
      | ok out =>
        exact ih _ _ fun r sl h1 h2 =>
          h r sl (by omega) (by simp only [List.length_cons] at *; omega)
    · simp [if_neg he]

/-! ### Algebra of writing one row segment: `buf.take s ++ c ++ buf.drop e` -/

theorem setSeg_length (buf c : List α) (s e : Nat)
    (hse : s + c.length = e) (he : e ≤ buf.length) :
    (buf.take s ++ c ++ buf.drop e).length = buf.length := by
  simp only [List.length_append, List.length_take, List.length_drop]
  omega

theorem setSeg_take (buf c : List α) (s e m : Nat)
    (hm : m ≤ s) (hs : s ≤ buf.length) :
    (buf.take s ++ c ++ buf.drop e).take m = buf.take m := by
  rw [List.append_assoc,
    List.take_append_of_le_length (by simp only [List.length_take]; omega),
    List.take_take, min_eq_left hm]

theorem setSeg_segment (buf c : List α) (s e : Nat) (hs : s ≤ buf.length) :
    ((buf.take s ++ c ++ buf.drop e).drop s).take c.length = c := by
  rw [List.append_assoc, List.drop_left' (by simp only [List.length_take]; omega),
    List.take_left]

theorem setSeg_getElem (buf c : List α) (s e i : Nat)
    (hse : s + c.length = e) (he : e ≤ buf.length)
    (hi : i < s ∨ e ≤ i) :
    (buf.take s ++ c ++ buf.drop e)[i]? = buf[i]? := by
  rw [List.append_assoc, List.getElem?_append]
  rcases hi with hi | hi
  · rw [if_pos (by simp only [List.length_take]; omega), List.getElem?_take,
      if_pos hi]
  · rw [if_neg (by simp only [List.length_take]; omega), List.getElem?_append,
      if_neg (by simp only [List.length_take]; omega), List.getElem?_drop]
    congr 1
    simp only [List.length_take]
    omega

/-- Main characterisation of the `insert` write loop over the rows
`r0, r0+1, …` at offsets `s, s+W, …`, when the data holds enough chunks:
the loop succeeds, preserves the buffer length, leaves everything outside
the written row segments untouched, each written row segment holds its
chunk of the data, and slicing the same ranges back returns exactly the
consumed part of the data. -/
theorem insert_loop_spec (d : List α) (L W exp : Nat) (hL : 0 < L)
    (hLW : L ≤ W) :
    ∀ (n r0 s : Nat) (buf : List α),
      (r0 + n) * L ≤ d.length →
      (∀ r, r < n → s + r * W + L ≤ buf.length) →
      ∃ B, writeRows buf r0 (rowRangesAux s W L n) (insertWriter d L exp)
          = .ok B ∧
        B.length = buf.length ∧
        B.take s = buf.take s ∧
        (∀ i, (∀ r, r < n → ¬ (s + r * W ≤ i ∧ i < s + r * W + L)) →
          B[i]? = buf[i]?) ∧
        (∀ r, r < n →
          (B.drop (s + r * W)).take L = (d.drop ((r0 + r) * L)).take L) ∧
        sliceRows B (rowRangesAux s W L n)
          = .ok ((d.drop (r0 * L)).take (n * L)) := by
  intro n
  induction n with
  | zero =>
    intro r0 s buf _ _
    exact ⟨buf, rfl, rfl, rfl, fun i _ => rfl,
      fun r hr => absurd hr (by omega),
      by simp [rowRangesAux, sliceRows]⟩
  | succ m ih =>
    intro r0 s buf hd hranges
    have h0 : s + L ≤ buf.length := by
      have := hranges 0 (by omega)
      simpa using this
    have hsucc : (r0 + 1) * L = r0 * L + L := by ring
    have hc1 : (r0 + 1) * L ≤ d.length := by
      have h1 : (r0 + 1) * L ≤ (r0 + (m + 1)) * L :=
        Nat.mul_le_mul_right L (by omega)
      omega
    have hclen : ((d.drop (r0 * L)).take L).length = L := by
      simp only [List.length_take, List.length_drop]
      omega
    have step : writeRows buf r0 (rowRangesAux s W L (m + 1))
          (insertWriter d L exp)
        = writeRows (buf.take s ++ (d.drop (r0 * L)).take L ++ buf.drop (s + L))
            (r0 + 1) (rowRangesAux (s + W) W L m) (insertWriter d L exp) := by
      show writeRows buf r0 ((s, s + L) :: rowRangesAux (s + W) W L m) _ = _
      simp only [writeRows, if_pos h0]
      rw [show insertWriter d L exp r0 ((buf.drop s).take (s + L - s))
            = .ok ((d.drop (r0 * L)).take L) from by
        simp [insertWriter, if_pos hc1]]
    have hlen2 : (buf.take s ++ (d.drop (r0 * L)).take L ++ buf.drop (s + L)).length
        = buf.length :=
      setSeg_length buf _ s (s + L) (by omega) h0
    obtain ⟨B, hok, hlen, htake, hout, hrows, hslice⟩ :=
      ih (r0 + 1) (s + W) (buf.take s ++ (d.drop (r0 * L)).take L ++ buf.drop (s + L))
        (by
          have h1 : r0 + 1 + m = r0 + (m + 1) := by omega
          rw [h1]; exact hd)
        (fun r hr => by
          rw [hlen2]
          have h1 := hranges (r + 1) (by omega)
          have h2 : s + W + r * W = s + (r + 1) * W := by ring
          rw [h2]; exact h1)
    -- the first written segment of `B`
    have hBtake : ∀ m', m' ≤ s + W → B.take m'
        = (buf.take s ++ (d.drop (r0 * L)).take L ++ buf.drop (s + L)).take m' := by
      intro m' hm'
      have t1 : B.take m' = (B.take (s + W)).take m' := by
        rw [List.take_take, min_eq_left hm']
      rw [t1, htake, List.take_take, min_eq_left hm']
    have hseg : (B.drop s).take L = (d.drop (r0 * L)).take L := by
      have t1 : (B.drop s).take L = (B.take (s + L)).drop s := by
        rw [List.drop_take]
        congr 1
        omega
      rw [t1, hBtake (s + L) (by omega), List.drop_take]
      have t2 : (s + L) - s = L := by omega
      rw [t2]
      calc ((buf.take s ++ (d.drop (r0 * L)).take L ++ buf.drop (s + L)).drop s).take L
          = ((buf.take s ++ (d.drop (r0 * L)).take L ++ buf.drop (s + L)).drop s).take
              ((d.drop (r0 * L)).take L).length := by rw [hclen]
        _ = (d.drop (r0 * L)).take L :=
            setSeg_segment buf _ s (s + L) (by omega)
    refine ⟨B, by rw [step]; exact hok, by rw [hlen, hlen2], ?_, ?_, ?_, ?_⟩
    · -- prefix before `s` unchanged
      have t1 : B.take s
          = (buf.take s ++ (d.drop (r0 * L)).take L ++ buf.drop (s + L)).take s :=
        hBtake s (by omega)
      rw [t1]
      exact setSeg_take buf _ s (s + L) s (le_refl s) (by omega)
    · -- everything outside the m+1 row segments unchanged
      intro i hi
      have hB2 : B[i]?
          = (buf.take s ++ (d.drop (r0 * L)).take L ++ buf.drop (s + L))[i]? := by
        refine hout i fun r hr => ?_
        have h1 := hi (r + 1) (by omega)
        have h2 : s + W + r * W = s + (r + 1) * W := by ring
        rw [h2]; exact h1
      rw [hB2]
      refine setSeg_getElem buf _ s (s + L) i (by omega) h0 ?_
      have h1 := hi 0 (by omega)
      simp only [Nat.zero_mul, Nat.add_zero] at h1
      omega
    · -- each row segment holds its chunk of the data
      intro r hr
      match r with
      | 0 =>
        simpa using hseg
      | r' + 1 =>
        have h1 := hrows r' (by omega)
        have h2 : s + W + r' * W = s + (r' + 1) * W := by ring
        have h3 : r0 + 1 + r' = r0 + (r' + 1) := by omega
        rw [h2, h3] at h1
        exact h1
    · -- slicing the ranges back returns the consumed data
      show sliceRows B ((s, s + L) :: rowRangesAux (s + W) W L m)
          = .ok ((d.drop (r0 * L)).take ((m + 1) * L))
      simp only [sliceRows]
      rw [if_pos (by rw [hlen, hlen2]; exact h0), hslice]
      dsimp only
      congr 1
      have t2 : (s + L) - s = L := by omega
      rw [t2, hseg]
      rw [show (r0 + 1) * L = r0 * L + L from by ring, ← List.drop_drop,
        ← List.take_add]
      congr 1
      ring

/-- A region lying fully inside the grid produces only ranges that end
within the buffer. -/
theorem range_in_bounds (b : Bounds2D) (gw cs H len : Nat)
    (hlen : len = gw * cs * H)
    (hx : b.x + b.width ≤ gw) (hy : b.y + b.height ≤ H) :
    ∀ r, r < b.height →
      b.x * cs + b.y * (gw * cs) + r * (gw * cs) + b.width * cs ≤ len := by
  intro r hr
  have h1 : b.x * cs + b.width * cs ≤ gw * cs := by
    rw [← Nat.add_mul]
    exact Nat.mul_le_mul_right cs hx
  have h2 : b.y + r + 1 ≤ H := by omega
  calc b.x * cs + b.y * (gw * cs) + r * (gw * cs) + b.width * cs
      = (b.x * cs + b.width * cs) + (b.y + r) * (gw * cs) := by ring
    _ ≤ gw * cs + (b.y + r) * (gw * cs) := by omega
    _ = (b.y + r + 1) * (gw * cs) := by ring
    _ ≤ H * (gw * cs) := Nat.mul_le_mul_right _ h2
    _ = gw * cs * H := by ring
    _ = len := hlen.symm

theorem area_pos_width (b : Bounds2D) (h : 0 < b.area) : 0 < b.width := by
  rcases Nat.eq_zero_or_pos b.width with h0 | h0
  · simp [Bounds2D.area, h0] at h
  · exact h0

theorem area_pos_height (b : Bounds2D) (h : 0 < b.area) : 0 < b.height := by
  rcases Nat.eq_zero_or_pos b.height with h0 | h0
  · simp [Bounds2D.area, h0] at h
  · exact h0

/-- Claim C1: for every valid grid (buffer length `width * chunk_size *
height`, `chunk_size ≥ 1`), every region fully inside the grid with
positive area, and every data sequence of length exactly
`R.width * chunk_size * R.height`, `insert(R, D)` succeeds and a
subsequent `slice(R)` returns exactly `D`. -/
theorem insert_slice_roundtrip (g : Grid2D α) (H : Nat) (b : Bounds2D)
    (d : List α)
    (hlen : g.arr.length = g.width * g.chunk_size * H)
    (hcs : 1 ≤ g.chunk_size)
    (harea : 0 < b.area)
    (hx : b.x + b.width ≤ g.width) (hy : b.y + b.height ≤ H)
    (hd : d.length = b.width * g.chunk_size * b.height) :
    ∃ g', g.insert b d = .ok g' ∧ g'.slice b = .ok d := by
  have hw : 0 < b.width := area_pos_width b harea
  have hgw : 0 < g.width := by omega
  have hL : 0 < b.width * g.chunk_size := Nat.mul_pos hw hcs
  have hLW : b.width * g.chunk_size ≤ g.width * g.chunk_size :=
    Nat.mul_le_mul_right _ (by omega)
  obtain ⟨B, hok, _, _, _, _, hslice⟩ :=
    insert_loop_spec d (b.width * g.chunk_size) (g.width * g.chunk_size)
      b.height hL hLW b.height 0
      (b.x * g.chunk_size + b.y * (g.width * g.chunk_size)) g.arr
      (by
        have h1 : (0 + b.height) * (b.width * g.chunk_size) = d.length := by
          rw [hd]; ring
        omega)
      (fun r hr => range_in_bounds b g.width g.chunk_size H g.arr.length
        hlen hx hy r hr)
  refine ⟨{ g with arr := B }, ?_, ?_⟩
  · simp only [Grid2D.insert]
    rw [if_neg (by omega), if_neg (by omega), row_ranges_eq_aux, hok]
  · simp only [Grid2D.slice]
    rw [if_neg (by omega), row_ranges_eq_aux]
    rw [hslice, Nat.zero_mul, List.drop_zero,
      show b.height * (b.width * g.chunk_size) = d.length from by rw [hd]; ring,
      List.take_length]

/-- Witness for C1 at the grid and data of the repository's `insert` test:
a 3×3 grid with chunk size 2 and the 2×2 region at `(1,1)`. -/
theorem insert_slice_roundtrip_witness :
    ∃ g', (Grid2D.mk (List.replicate 18 (0 : Nat)) 3 2).insert
        ⟨1, 1, 2, 2⟩ [1, 2, 3, 4, 5, 6, 7, 8] = .ok g' ∧
      g'.slice ⟨1, 1, 2, 2⟩ = .ok [1, 2, 3, 4, 5, 6, 7, 8] :=
  insert_slice_roundtrip (Grid2D.mk (List.replicate 18 (0 : Nat)) 3 2) 3
    ⟨1, 1, 2, 2⟩ [1, 2, 3, 4, 5, 6, 7, 8] (by decide) (by decide) (by decide)
    (by decide) (by decide) (by decide)

/-- Claim C4: for every bounding box with positive area, grid width and
chunk size, `row_ranges` produces exactly one range per row `r ∈ [0, h)`,
the `r`-th being `[x*cs + y*width*cs + r*width*cs , … + w*cs)`; in
particular for a 3×3 grid, region `(1,1,1,2)`, it yields `[4,5)` then
`[7,8)` with chunk size 1, and `[8,10)` then `[14,16)` with chunk size 2. -/
theorem row_ranges_formula (b : Bounds2D) (gw cs : Nat) (harea : 0 < b.area) :
    (row_ranges b gw cs).length = b.height ∧
    (∀ r, r < b.height →
      (row_ranges b gw cs)[r]? =
        some (b.x * cs + b.y * gw * cs + r * gw * cs,
          b.x * cs + b.y * gw * cs + r * gw * cs + b.width * cs)) ∧
    row_ranges ⟨1, 1, 1, 2⟩ 3 1 = [(4, 5), (7, 8)] ∧
    row_ranges ⟨1, 1, 1, 2⟩ 3 2 = [(8, 10), (14, 16)] := by
  refine ⟨by simp [row_ranges], ?_, by decide, by decide⟩
  intro r hr
  simp only [row_ranges, List.getElem?_map, List.getElem?_range hr,
    Option.map_some', Option.some.injEq, Prod.mk.injEq]
  constructor <;> ring

/-- Witness for C4 at the region of the repository's `row_ranges` test. -/
theorem row_ranges_formula_witness :
    0 < Bounds2D.area ⟨1, 1, 1, 2⟩ ∧
    row_ranges ⟨1, 1, 1, 2⟩ 3 1 = [(4, 5), (7, 8)] :=
  ⟨by decide, (row_ranges_formula ⟨1, 1, 1, 2⟩ 3 1 (by decide)).2.2.1⟩

/-- The explicit value of each entry of `row_ranges`. -/
theorem row_ranges_getElem (b : Bounds2D) (gw cs : Nat) :
    ∀ r, r < b.height → (row_ranges b gw cs)[r]? =
      some (b.x * cs + b.y * (gw * cs) + r * (gw * cs),
        b.x * cs + b.y * (gw * cs) + r * (gw * cs) + b.width * cs) := by
  intro r hr
  simp only [row_ranges, List.getElem?_map, List.getElem?_range hr,
    Option.map_some']

/-- An out-of-range index of `row_ranges` yields no range. -/
theorem row_ranges_getElem_none (b : Bounds2D) (gw cs r : Nat)
    (p : Nat × Nat) (hp : (row_ranges b gw cs)[r]? = some p) : r < b.height := by
  by_contra h
  have hl : (row_ranges b gw cs).length ≤ r := by
    simp only [row_ranges, List.length_map, List.length_range]
    omega
  rw [List.getElem?_eq_none hl] at hp
  exact absurd hp (by simp)

/-- Claim C5: for every bounding box with positive area lying fully inside
the grid (`x + w ≤ width`, `y + h ≤ height`), `row_ranges` produces
exactly `h` ranges, each of length `w * chunk_size`, and the ranges are
pairwise disjoint. -/
theorem row_ranges_disjoint (b : Bounds2D) (gw cs H : Nat)
    (harea : 0 < b.area) (hx : b.x + b.width ≤ gw)
    (hy : b.y + b.height ≤ H) :
    (row_ranges b gw cs).length = b.height ∧
    (∀ (r : Nat) (p : Nat × Nat), (row_ranges b gw cs)[r]? = some p →
      p.2 = p.1 + b.width * cs) ∧
    (∀ (i j : Nat) (pi pj : Nat × Nat), i ≠ j →
      (row_ranges b gw cs)[i]? = some pi →
      (row_ranges b gw cs)[j]? = some pj →
      ∀ t, pi.1 ≤ t → t < pi.2 → ¬ (pj.1 ≤ t ∧ t < pj.2)) := by
  refine ⟨by simp [row_ranges], ?_, ?_⟩
  · intro r p hp
    have hr := row_ranges_getElem_none b gw cs r p hp
    rw [row_ranges_getElem b gw cs r hr] at hp
    injection hp with hp
    subst hp
    rfl
  · intro i j pi pj hij hpi hpj t ht1 ht2 hc
    have hi := row_ranges_getElem_none b gw cs i pi hpi
    have hj := row_ranges_getElem_none b gw cs j pj hpj
    rw [row_ranges_getElem b gw cs i hi] at hpi
    rw [row_ranges_getElem b gw cs j hj] at hpj
    injection hpi with hpi
    injection hpj with hpj
    subst hpi
    subst hpj
    obtain ⟨hs, he⟩ := hc
    simp only at hs he ht1 ht2
    have hw : b.width * cs ≤ gw * cs := Nat.mul_le_mul_right cs (by omega)
    rcases Nat.lt_or_ge i j with h | h
    · have h1 : (i + 1) * (gw * cs) ≤ j * (gw * cs) :=
        Nat.mul_le_mul_right _ (by omega)
      have h2 : (i + 1) * (gw * cs) = i * (gw * cs) + gw * cs := by ring
      omega
    · have h1 : (j + 1) * (gw * cs) ≤ i * (gw * cs) :=
        Nat.mul_le_mul_right _ (by omega)
      have h2 : (j + 1) * (gw * cs) = j * (gw * cs) + gw * cs := by ring
      omega

/-- Witness for C5: the two ranges of region `(1,1,1,2)` on a 3×3 grid do
not both contain index 4. -/
theorem row_ranges_disjoint_witness :
    (row_ranges ⟨1, 1, 1, 2⟩ 3 1).length = 2 ∧
    ¬ ((7, 8).1 ≤ 4 ∧ (4 : Nat) < (7, 8).2) :=
  ⟨((row_ranges_disjoint ⟨1, 1, 1, 2⟩ 3 1 3 (by decide) (by decide)
      (by decide)).1).trans rfl,
    (row_ranges_disjoint ⟨1, 1, 1, 2⟩ 3 1 3 (by decide) (by decide)
      (by decide)).2.2 0 1 (4, 5) (7, 8) (by decide) (by decide) (by decide)
      4 (by decide) (by decide)⟩

/-- Claim C8: for every valid grid, `size()` returns
`(width, buffer.length / (width * chunk_size))`. -/
theorem size_eq (g : Grid2D α) (H : Nat)
    (hlen : g.arr.length = g.width * g.chunk_size * H)
    (hcs : 1 ≤ g.chunk_size) (hw : 1 ≤ g.width) :
    g.size = .ok (g.width, g.arr.length / (g.width * g.chunk_size)) := by
  simp only [Grid2D.size]
  rw [if_neg (by omega), Nat.div_div_eq_div_mul, Nat.mul_comm g.chunk_size]

/-- Witness for C8 on the 3×3 chunk-size-2 grid of the repository tests. -/
theorem size_eq_witness :
    (Grid2D.mk (List.replicate 18 (0 : Nat)) 3 2).size = .ok (3, 3) :=
  (size_eq (Grid2D.mk (List.replicate 18 (0 : Nat)) 3 2) 3 (by decide)
    (by decide) (by decide)).trans rfl

/-- Claim C3: construction fails whenever the buffer length is not an
exact multiple of `width * chunk_size` or the chunk size is zero; in
particular buffer length 10, width 3, chunk size 1 fails the construction
assertion (which expected a multiple of 3, namely 9). -/
theorem new_rejects_invalid :
    (∀ (α : Type) (arr : List α) (width chunk_size : Nat),
      chunk_size = 0 ∨ ¬ (width * chunk_size ∣ arr.length) →
      ∃ e, Grid2D.new arr width chunk_size = .error e) ∧
    Grid2D.new (List.replicate 10 (0 : Nat)) 3 1 = .error (.assertSize 9 10) := by
  constructor
  · intro α arr width cs h
    simp only [Grid2D.new]
    by_cases h0 : cs = 0
    · exact ⟨_, by rw [if_pos h0]⟩
    · rw [if_neg h0]
      by_cases h1 : width * cs = 0
      · exact ⟨_, by rw [if_pos h1]⟩
      · rw [if_neg h1]
        have hnd : ¬ (width * cs ∣ arr.length) := by tauto
        have hne : ¬ (arr.length / (width * cs) * width * cs = arr.length) := by
          intro he
          rw [Nat.mul_assoc] at he
          refine hnd ⟨arr.length / (width * cs), ?_⟩
          rw [Nat.mul_comm]
          exact he.symm
        exact ⟨_, by rw [if_neg hne]⟩
  · rfl

/-- Witness for C3: a 3-element buffer with width 2, chunk size 1. -/
theorem new_rejects_invalid_witness :
    ∃ e, Grid2D.new ([0, 0, 0] : List Nat) 2 1 = .error e :=
  new_rejects_invalid.1 Nat [0, 0, 0] 2 1 (Or.inr (by decide))

/-- Claim C2 counterexample: the bounding box `(5,0,1,1)` has positive
area but extends outside `[0,3) × [0,3)` on a 3×3 chunk-size-1 grid, yet
`write` with it reports no error at all: the computed range `[5,6)`
happens to fall inside the 9-element buffer, so the operation succeeds
and mutates buffer index 5 — which belongs to cell `(2,1)`, a cell not in
the supplied region.  No bounds-containment validation exists in the
code, contradicting the claim that an out-of-range box is validated and
reported as an error. -/
theorem write_out_of_bounds_silent :
    (Grid2D.mk (List.replicate 9 (0 : Nat)) 3 1).write ⟨5, 0, 1, 1⟩
        (fun _ slice => slice.map (· + 1))
      = .ok (Grid2D.mk [0, 0, 0, 0, 0, 1, 0, 0, 0] 3 1) := by rfl

/-- Claim C2 (amended): only the non-positive-area half of the validation
exists, as a debug assertion that runs when the ranges are requested and
before any range is accessed: every `write`, `slice` or `insert` with a
zero-area box reports the area-assertion failure and leaves the buffer
untouched (for `insert` this holds when the row length
`w * chunk_size` is positive, since `chunks_exact` panics first
otherwise).  Bounds containment is never validated: an out-of-grid box
either succeeds silently (see the counterexample) or fails only at
slice-access time with an index panic. -/
theorem area_zero_asserts (g : Grid2D α) (b : Bounds2D)
    (f : Nat → List α → List α) (d : List α)
    (harea : b.area = 0) (hline : 0 < b.width * g.chunk_size) :
    g.write b f = .error (.assertArea, g.arr) ∧
    g.slice b = .error .assertArea ∧
    g.insert b d = .error (.assertArea, g.arr) := by
  refine ⟨?_, ?_, ?_⟩
  · simp only [Grid2D.write]
    rw [if_pos harea]
  · simp only [Grid2D.slice]
    rw [if_pos harea]
  · simp only [Grid2D.insert]
    rw [if_neg (by omega), if_pos harea]

/-- Witness for the amended C2: a width-1, height-0 box on a 3×3 grid. -/
theorem area_zero_asserts_witness :
    (Grid2D.mk (List.replicate 9 (0 : Nat)) 3 1).write ⟨0, 0, 1, 0⟩
        (fun _ slice => slice)
      = .error (.assertArea, List.replicate 9 (0 : Nat)) ∧
    (Grid2D.mk (List.replicate 9 (0 : Nat)) 3 1).slice ⟨0, 0, 1, 0⟩
      = .error .assertArea ∧
    (Grid2D.mk (List.replicate 9 (0 : Nat)) 3 1).insert ⟨0, 0, 1, 0⟩ [1]
      = .error (.assertArea, List.replicate 9 (0 : Nat)) :=
  area_zero_asserts (Grid2D.mk (List.replicate 9 (0 : Nat)) 3 1)
    ⟨0, 0, 1, 0⟩ (fun _ slice => slice) [1] (by decide) (by decide)

/-- Claim C7 counterexample: on the width-3, chunk-size-1 grid with nine
zeroed elements, `write((0,1,2,1), add 5)` followed by
`write((1,1,2,2), add 2)` yields `[0,0,0, 5,7,2, 0,2,2]` — element 5
(row 1, column 2) is touched only by the second write, so it holds 2,
not the 7 the claim expects.  (The chunk-size-2 elaboration of the same
spec scenario, which matches the repository's own `write` test, is
consistent with this: its row 1 is `5,5,7,7,2,2`, i.e. cell values
`5,7,2`.) -/
theorem scenario_a_chunk1_counterexample :
    (Grid2D.mk (List.replicate 9 (0 : Nat)) 3 1).write ⟨0, 1, 2, 1⟩
        (fun _ slice => slice.map (· + 5))
      = .ok (Grid2D.mk [0, 0, 0, 5, 5, 0, 0, 0, 0] 3 1) ∧
    (Grid2D.mk [0, 0, 0, 5, 5, 0, 0, 0, 0] 3 1).write ⟨1, 1, 2, 2⟩
        (fun _ slice => slice.map (· + 2))
      = .ok (Grid2D.mk [0, 0, 0, 5, 7, 2, 0, 2, 2] 3 1) ∧
    ([0, 0, 0, 5, 7, 2, 0, 2, 2] : List Nat) ≠ [0, 0, 0, 5, 7, 7, 0, 2, 2] :=
  ⟨rfl, rfl, by decide⟩

/-- Claim C7 (amended): the two writes of the scenario yield
`[0,0,0, 5,7,2, 0,2,2]` (the buffer element at index 5 receives only the
`+2` of the second write). -/
theorem scenario_a_chunk1_amended :
    Grid2D.new (List.replicate 9 (0 : Nat)) 3 1
      = .ok (Grid2D.mk (List.replicate 9 (0 : Nat)) 3 1) ∧
    ((Grid2D.mk (List.replicate 9 (0 : Nat)) 3 1).write ⟨0, 1, 2, 1⟩
        (fun _ slice => slice.map (· + 5))).bind
      (fun g => g.write ⟨1, 1, 2, 2⟩ (fun _ slice => slice.map (· + 2)))
      = .ok (Grid2D.mk [0, 0, 0, 5, 7, 2, 0, 2, 2] 3 1) :=
  ⟨rfl, rfl⟩

/-- Shared characterisation of `insert` when the data supplies exactly `k`
full row chunks and the region needs more: the operation stops with the
row-`k` data-shape panic, and the buffer at that moment has rows `0..k`
of the region filled with the data while everything else is untouched. -/
theorem insert_exhausted (g : Grid2D α) (H : Nat) (b : Bounds2D) (d : List α)
    (k ρ : Nat)
    (hlen : g.arr.length = g.width * g.chunk_size * H)
    (hcs : 1 ≤ g.chunk_size)
    (harea : 0 < b.area)
    (hx : b.x + b.width ≤ g.width) (hy : b.y + b.height ≤ H)
    (hd : d.length = k * (b.width * g.chunk_size) + ρ)
    (hρ : ρ < b.width * g.chunk_size)
    (hk : k < b.height) :
    ∃ B, g.insert b d = .error (.insertRows b.height k, B) ∧
      B.length = g.arr.length ∧
      (∀ r, r < k →
        (B.drop (b.x * g.chunk_size + b.y * (g.width * g.chunk_size)
            + r * (g.width * g.chunk_size))).take (b.width * g.chunk_size)
          = (d.drop (r * (b.width * g.chunk_size))).take
              (b.width * g.chunk_size)) ∧
      (∀ i, (∀ r, r < k →
          ¬ (b.x * g.chunk_size + b.y * (g.width * g.chunk_size)
                + r * (g.width * g.chunk_size) ≤ i ∧
              i < b.x * g.chunk_size + b.y * (g.width * g.chunk_size)
                + r * (g.width * g.chunk_size)
                + b.width * g.chunk_size)) →
        B[i]? = g.arr[i]?) := by
  have hw : 0 < b.width := area_pos_width b harea
  have hL : 0 < b.width * g.chunk_size := Nat.mul_pos hw hcs
  have hLW : b.width * g.chunk_size ≤ g.width * g.chunk_size :=
    Nat.mul_le_mul_right _ (by omega)
  obtain ⟨B, hok, hlenB, _, hout, hrows, _⟩ :=
    insert_loop_spec d (b.width * g.chunk_size) (g.width * g.chunk_size)
      b.height hL hLW k 0
      (b.x * g.chunk_size + b.y * (g.width * g.chunk_size)) g.arr
      (by
        have h1 : (0 + k) * (b.width * g.chunk_size)
            = k * (b.width * g.chunk_size) := by ring
        omega)
      (fun r hr => range_in_bounds b g.width g.chunk_size H g.arr.length
        hlen hx hy r (by omega))
  refine ⟨B, ?_, hlenB, ?_, hout⟩
  · -- run the loop: `k` successful rows, then the row-`k` panic
    have hb : b.x * g.chunk_size + b.y * (g.width * g.chunk_size)
        + k * (g.width * g.chunk_size) + b.width * g.chunk_size
        ≤ g.arr.length :=
      range_in_bounds b g.width g.chunk_size H g.arr.length hlen hx hy k hk
    have hin : b.x * g.chunk_size + b.y * (g.width * g.chunk_size)
        + k * (g.width * g.chunk_size) + b.width * g.chunk_size
        ≤ B.length := by
      rw [hlenB]
      exact hb
    have hnot : ¬ ((k + 1) * (b.width * g.chunk_size) ≤ d.length) := by
      have h1 : (k + 1) * (b.width * g.chunk_size)
          = k * (b.width * g.chunk_size) + b.width * g.chunk_size := by ring
      omega
    have hsplit : rowRangesAux
          (b.x * g.chunk_size + b.y * (g.width * g.chunk_size))
          (g.width * g.chunk_size) (b.width * g.chunk_size) b.height
        = rowRangesAux (b.x * g.chunk_size + b.y * (g.width * g.chunk_size))
            (g.width * g.chunk_size) (b.width * g.chunk_size) k
          ++ rowRangesAux
              (b.x * g.chunk_size + b.y * (g.width * g.chunk_size)
                + k * (g.width * g.chunk_size))
              (g.width * g.chunk_size) (b.width * g.chunk_size)
              (b.height - k - 1 + 1) := by
      conv_lhs => rw [show b.height = k + (b.height - k - 1 + 1) from by omega]
      exact rowRangesAux_add _ _ _ _ _
    have hfull : writeRows g.arr 0
        (rowRangesAux (b.x * g.chunk_size + b.y * (g.width * g.chunk_size))
          (g.width * g.chunk_size) (b.width * g.chunk_size) b.height)
        (insertWriter d (b.width * g.chunk_size) b.height)
        = .error (.insertRows b.height k, B) := by
      rw [hsplit, writeRows_append, hok]
      dsimp only
      rw [length_rowRangesAux]
      simp only [rowRangesAux, writeRows, insertWriter, Nat.zero_add]
      rw [if_pos hin, if_neg hnot]
    simp only [Grid2D.insert]
    rw [if_neg (by omega), if_neg (by omega), row_ranges_eq_aux, hfull]
  · intro r hr
    have h1 := hrows r hr
    rw [show (0 + r) * (b.width * g.chunk_size)
        = r * (b.width * g.chunk_size) from by ring] at h1
    exact h1

/-- Claim C6: for every region requiring `h` rows and every source
sequence exhausted before supplying `h` full chunks of `w * chunk_size`
elements (here: supplying exactly `k < h` full chunks and a partial
remainder `ρ < w * chunk_size`), `insert` fails with the data-shape
panic that reports the expected row count and the unmet row index `k`;
in particular a region requiring 2 rows with data for only 1 row fails
identifying row index 1 as unmet (see the witness). -/
theorem insert_data_shape_error (g : Grid2D α) (H : Nat) (b : Bounds2D)
    (d : List α) (k ρ : Nat)
    (hlen : g.arr.length = g.width * g.chunk_size * H)
    (hcs : 1 ≤ g.chunk_size) (harea : 0 < b.area)
    (hx : b.x + b.width ≤ g.width) (hy : b.y + b.height ≤ H)
    (hd : d.length = k * (b.width * g.chunk_size) + ρ)
    (hρ : ρ < b.width * g.chunk_size) (hk : k < b.height) :
    ∃ B, g.insert b d = .error (.insertRows b.height k, B) := by
  obtain ⟨B, h1, -, -, -⟩ :=
    insert_exhausted g H b d k ρ hlen hcs harea hx hy hd hρ hk
  exact ⟨B, h1⟩

/-- Witness for C6, Scenario E: a 2×2 region on a 3×3 grid with data for
one row only fails reporting expected 2 rows, stopped at row 1. -/
theorem insert_data_shape_error_witness :
    ∃ B, (Grid2D.mk (List.replicate 9 (0 : Nat)) 3 1).insert ⟨0, 0, 2, 2⟩
      [1, 2] = .error (.insertRows 2 1, B) :=
  insert_data_shape_error (Grid2D.mk (List.replicate 9 (0 : Nat)) 3 1) 3
    ⟨0, 0, 2, 2⟩ [1, 2] 1 0 (by decide) (by decide) (by decide) (by decide)
    (by decide) (by decide) (by decide) (by decide)

/-- Claim C10: `insert` is not atomic on a data-shape error: when the
data supplies exactly `k < h` full chunks, then at the moment the row-`k`
error is raised the buffer reported with the panic has rows `0..k` of
the region already holding the copied source data, while every buffer
element outside those `k` row ranges is unchanged. -/
theorem insert_partial_on_error (g : Grid2D α) (H : Nat) (b : Bounds2D)
    (d : List α) (k ρ : Nat)
    (hlen : g.arr.length = g.width * g.chunk_size * H)
    (hcs : 1 ≤ g.chunk_size) (harea : 0 < b.area)
    (hx : b.x + b.width ≤ g.width) (hy : b.y + b.height ≤ H)
    (hd : d.length = k * (b.width * g.chunk_size) + ρ)
    (hρ : ρ < b.width * g.chunk_size) (hk : k < b.height) :
    ∃ B, g.insert b d = .error (.insertRows b.height k, B) ∧
      B.length = g.arr.length ∧
      (∀ r, r < k →
        (B.drop (b.x * g.chunk_size + b.y * (g.width * g.chunk_size)
            + r * (g.width * g.chunk_size))).take (b.width * g.chunk_size)
          = (d.drop (r * (b.width * g.chunk_size))).take
              (b.width * g.chunk_size)) ∧
      (∀ i, (∀ r, r < k →
          ¬ (b.x * g.chunk_size + b.y * (g.width * g.chunk_size)
                + r * (g.width * g.chunk_size) ≤ i ∧
              i < b.x * g.chunk_size + b.y * (g.width * g.chunk_size)
                + r * (g.width * g.chunk_size)
                + b.width * g.chunk_size)) →
        B[i]? = g.arr[i]?) :=
  insert_exhausted g H b d k ρ hlen hcs harea hx hy hd hρ hk

/-- Witness for C10: inserting a single row of data into the 2×2 region
at `(1,1)` of a 3×3 grid stops at row 1, with row 0 of the region (buffer
indices 4 and 5) already copied and the rest untouched. -/
theorem insert_partial_on_error_witness :
    ∃ B, (Grid2D.mk (List.replicate 9 (0 : Nat)) 3 1).insert ⟨1, 1, 2, 2⟩
        [4, 5] = .error (.insertRows 2 1, B) ∧
      B.length = (List.replicate 9 (0 : Nat)).length ∧
      (∀ r, r < 1 →
        (B.drop (1 * 1 + 1 * (3 * 1) + r * (3 * 1))).take (2 * 1)
          = (([4, 5] : List Nat).drop (r * (2 * 1))).take (2 * 1)) ∧
      (∀ i, (∀ r, r < 1 →
          ¬ (1 * 1 + 1 * (3 * 1) + r * (3 * 1) ≤ i ∧
              i < 1 * 1 + 1 * (3 * 1) + r * (3 * 1) + 2 * 1)) →
        B[i]? = (List.replicate 9 (0 : Nat))[i]?) :=
  insert_partial_on_error (Grid2D.mk (List.replicate 9 (0 : Nat)) 3 1) 3
    ⟨1, 1, 2, 2⟩ [4, 5] 1 0 (by decide) (by decide) (by decide) (by decide)
    (by decide) (by decide) (by decide) (by decide)

/-- Claim C9: for every in-grid region requiring `h` rows of
`w * chunk_size` elements and every source sequence strictly longer than
`h * w * chunk_size`, `insert` succeeds, copies only the first `h` chunks
of the data, and silently ignores the remaining elements (including any
trailing partial chunk): the result is identical to inserting just the
first `h * w * chunk_size` elements. -/
theorem insert_extra_data_ignored (g : Grid2D α) (H : Nat) (b : Bounds2D)
    (d : List α)
    (hlen : g.arr.length = g.width * g.chunk_size * H)
    (hcs : 1 ≤ g.chunk_size) (harea : 0 < b.area)
    (hx : b.x + b.width ≤ g.width) (hy : b.y + b.height ≤ H)
    (hd : b.height * (b.width * g.chunk_size) < d.length) :
    (∃ g', g.insert b d = .ok g') ∧
    g.insert b d
      = g.insert b (d.take (b.height * (b.width * g.chunk_size))) := by
  have hw : 0 < b.width := area_pos_width b harea
  have hL : 0 < b.width * g.chunk_size := Nat.mul_pos hw hcs
  have hLW : b.width * g.chunk_size ≤ g.width * g.chunk_size :=
    Nat.mul_le_mul_right _ (by omega)
  constructor
  · obtain ⟨B, hok, -, -, -, -, -⟩ :=
      insert_loop_spec d (b.width * g.chunk_size) (g.width * g.chunk_size)
        b.height hL hLW b.height 0
        (b.x * g.chunk_size + b.y * (g.width * g.chunk_size)) g.arr
        (by
          have h1 : (0 + b.height) * (b.width * g.chunk_size)
              = b.height * (b.width * g.chunk_size) := by ring
          omega)
        (fun r hr => range_in_bounds b g.width g.chunk_size H g.arr.length
          hlen hx hy r hr)
    refine ⟨{ g with arr := B }, ?_⟩
    simp only [Grid2D.insert]
    rw [if_neg (by omega), if_neg (by omega), row_ranges_eq_aux, hok]
  · have hcong : writeRows g.arr 0 (row_ranges b g.width g.chunk_size)
        (insertWriter d (b.width * g.chunk_size) b.height)
        = writeRows g.arr 0 (row_ranges b g.width g.chunk_size)
          (insertWriter (d.take (b.height * (b.width * g.chunk_size)))
            (b.width * g.chunk_size) b.height) := by
      apply writeRows_congr
      intro r sl h0r hrlt
      have hlenr : (row_ranges b g.width g.chunk_size).length = b.height := by
        simp [row_ranges]
      rw [hlenr] at hrlt
      have hr : r < b.height := by omega
      have hr1 : (r + 1) * (b.width * g.chunk_size)
          ≤ b.height * (b.width * g.chunk_size) :=
        Nat.mul_le_mul_right _ (by omega)
      have htlen : (d.take (b.height * (b.width * g.chunk_size))).length
          = b.height * (b.width * g.chunk_size) := by
        simp only [List.length_take]
        omega
      have hstep : (r + 1) * (b.width * g.chunk_size)
          = r * (b.width * g.chunk_size) + b.width * g.chunk_size := by ring
      simp only [insertWriter]
      rw [if_pos (by omega), if_pos (by rw [htlen]; exact hr1)]
      rw [List.drop_take, List.take_take, min_eq_left (by omega)]
    simp only [Grid2D.insert]
    rw [hcong]

/-- Witness for C9: inserting three elements into a single-cell region of
a 3×3 grid succeeds and equals inserting just the first element. -/
theorem insert_extra_data_ignored_witness :
    (∃ g', (Grid2D.mk (List.replicate 9 (0 : Nat)) 3 1).insert ⟨0, 0, 1, 1⟩
      [7, 8, 9] = .ok g') ∧
    (Grid2D.mk (List.replicate 9 (0 : Nat)) 3 1).insert ⟨0, 0, 1, 1⟩ [7, 8, 9]
      = (Grid2D.mk (List.replicate 9 (0 : Nat)) 3 1).insert ⟨0, 0, 1, 1⟩
          (([7, 8, 9] : List Nat).take (1 * (1 * 1))) :=
  insert_extra_data_ignored (Grid2D.mk (List.replicate 9 (0 : Nat)) 3 1) 3
    ⟨0, 0, 1, 1⟩ [7, 8, 9] (by decide) (by decide) (by decide) (by decide)
    (by decide) (by decide)
